import Mathlib

/-!
Verification of the batch document-extraction pipeline in `src/main.py`
(ai-pass-scan).  The Python source is shallowly embedded: pure string
manipulation becomes Lean functions on `String`/`List Char`; the effects of
the external world (reading the upload stream, writing the scratch copy,
the remote Gemini calls, deleting files) are supplied by an explicit
environment record, and the scratch directory is an explicit `Finset String`
of existing paths threaded through the functions.  Machine floats
(`time.time()` differences) are abstracted to an environment-supplied `Int`
tick; nothing in the pipeline computes with them.
-/

namespace AiPassScan

/-! ## Python string primitives used by `main.py` -/

/-- Python whitespace for `str.strip()` (ASCII fragment actually produced by
the Gemini text responses and filenames handled here). -/
def isPySpace (c : Char) : Bool :=
  c = ' ' || c = '\t' || c = '\n' || c = '\r' || c = '\x0b' || c = '\x0c'

/-- Python `str.strip()`: drop leading and trailing whitespace. -/
def pyStrip (s : String) : String :=
  String.mk (((s.data.dropWhile isPySpace).reverse.dropWhile isPySpace).reverse)

/-- Python `str.lower()` (ASCII fragment; the extensions compared in
`main.py` are ASCII). -/
def pyLower (s : String) : String :=
  String.mk (s.data.map Char.toLower)

/-- Python `s.startswith(pre)`. -/
def pyStartsWith (s pre : String) : Bool :=
  pre.data.isPrefixOf s.data

/-- Python `s.endswith(suf)`. -/
def pyEndsWith (s suf : String) : Bool :=
  suf.data.isSuffixOf s.data

/-- Python slicing `s[n:]` (drop the first `n` code points). -/
def pyDrop (s : String) (n : Nat) : String :=
  String.mk (s.data.drop n)

/-- Python slicing `s[:-n]` for `n ≤ len s` (drop the last `n` code points;
in `main.py` it is only used guarded by `endswith`). -/
def pyDropRight (s : String) (n : Nat) : String :=
  String.mk (s.data.take (s.data.length - n))

/-- Helper for substring containment: does `nee` occur contiguously in
`hay`? -/
def listHas (nee : List Char) : List Char → Bool
  | [] => nee.isEmpty
  | c :: t => nee.isPrefixOf (c :: t) || listHas nee t

/-- `strHas hay nee` holds when `nee` is a contiguous substring of `hay`;
used to state that error messages "name"/"carry" a piece of text. -/
def strHas (hay nee : String) : Bool :=
  listHas nee.data hay.data

/-- Last index of character `c` in `cs` (Python `str.rfind`, as an
`Option`). -/
def rfindIdx (cs : List Char) (c : Char) : Option Nat :=
  match cs.reverse.findIdx? (· = c) with
  | none => none
  | some i => some (cs.length - 1 - i)

/-- Extension part of Python `os.path.splitext` (posix rules): the suffix
from the last dot of the basename, unless every character of the basename
before that dot is itself a dot (leading dots do not start an extension). -/
def splitextExt (p : String) : String :=
  let cs := p.data
  match rfindIdx cs '.' with
  | none => ""
  | some d =>
    let s : Nat :=
      match rfindIdx cs '/' with
      | none => 0
      | some i => i + 1
    if s ≤ d ∧ ((cs.drop s).take (d - s)).any (· ≠ '.') then
      String.mk (cs.drop d)
    else ""

/-- `os.path.splitext(filename)[1].lower()` as used at `main.py:80` and
`main.py:181`. -/
def extOf (filename : String) : String :=
  pyLower (splitextExt filename)

/-! ## A model of `json.loads`

`main.py` parses the normalized Gemini text with `json.loads`.  The parser
below implements the RFC 8259 grammar fragment relevant here (objects,
arrays, strings with the standard escapes, numbers kept as lexemes,
`null`/`true`/`false`), with recursion fuelled by the input length.  Like
`json.loads` it fails on text that is not a single JSON value. -/

inductive Json where
  | jnull : Json
  | jbool : Bool → Json
  | jnum : String → Json
  | jstr : String → Json
  | jarr : List Json → Json
  | jobj : List (String × Json) → Json
deriving Repr

/-- JSON insignificant whitespace. -/
def isJsonWs (c : Char) : Bool :=
  c = ' ' || c = '\t' || c = '\n' || c = '\r'

def skipWs (cs : List Char) : List Char :=
  cs.dropWhile isJsonWs

/-- Value of a hex digit, if any. -/
def hexVal (c : Char) : Option Nat :=
  if '0' ≤ c ∧ c ≤ '9' then some (c.toNat - '0'.toNat)
  else if 'a' ≤ c ∧ c ≤ 'f' then some (c.toNat - 'a'.toNat + 10)
  else if 'A' ≤ c ∧ c ≤ 'F' then some (c.toNat - 'A'.toNat + 10)
  else none

/-- Single-character JSON string escapes. -/
def escChar : Char → Option Char
  | '"' => some '"'
  | '\\' => some '\\'
  | '/' => some '/'
  | 'b' => some (Char.ofNat 8)
  | 'f' => some (Char.ofNat 12)
  | 'n' => some '\n'
  | 'r' => some '\r'
  | 't' => some '\t'
  | _ => none

/-- Body of a JSON string after the opening quote; returns the decoded
characters and the input after the closing quote. -/
def parseStrBody : Nat → List Char → Except String (List Char × List Char)
  | 0, _ => .error "Unterminated string"
  | fuel + 1, cs =>
    match cs with
    | [] => .error "Unterminated string"
    | '"' :: rest => .ok ([], rest)
    | '\\' :: rest =>
      match rest with
      | [] => .error "Unterminated string"
      | e :: rest2 =>
        if e = 'u' then
          match rest2 with
          | h1 :: h2 :: h3 :: h4 :: rest3 =>
            match hexVal h1, hexVal h2, hexVal h3, hexVal h4 with
            | some a, some b, some c, some d =>
              (parseStrBody fuel rest3).map
                (fun r => (Char.ofNat (((a * 16 + b) * 16 + c) * 16 + d) :: r.1, r.2))
            | _, _, _, _ => .error "Invalid hex escape"
          | _ => .error "Invalid hex escape"
        else
          match escChar e with
          | some c => (parseStrBody fuel rest2).map (fun r => (c :: r.1, r.2))
          | none => .error "Invalid escape"
    | c :: rest => (parseStrBody fuel rest).map (fun r => (c :: r.1, r.2))

def digitsSpan (cs : List Char) : List Char × List Char :=
  (cs.takeWhile Char.isDigit, cs.dropWhile Char.isDigit)

/-- JSON number (kept as its lexeme, which is all the pipeline ever passes
along). -/
def parseNumber (cs : List Char) : Except String (Json × List Char) :=
  let sgn : List Char × List Char :=
    match cs with
    | '-' :: r => (['-'], r)
    | _ => ([], cs)
  match sgn.2 with
  | [] => .error "Expecting value"
  | c :: _ =>
    if c.isDigit then
      let ip : List Char × List Char :=
        match sgn.2 with
        | '0' :: r => (['0'], r)
        | other => digitsSpan other
      let fp : List Char × List Char :=
        match ip.2 with
        | '.' :: r =>
          match digitsSpan r with
          | ([], _) => ([], ip.2)
          | (ds, r2) => ('.' :: ds, r2)
        | _ => ([], ip.2)
      let ep : List Char × List Char :=
        match fp.2 with
        | 'e' :: '+' :: r =>
          match digitsSpan r with
          | ([], _) => ([], fp.2)
          | (ds, r2) => ('e' :: '+' :: ds, r2)
        | 'e' :: '-' :: r =>
          match digitsSpan r with
          | ([], _) => ([], fp.2)
          | (ds, r2) => ('e' :: '-' :: ds, r2)
        | 'e' :: r =>
          match digitsSpan r with
          | ([], _) => ([], fp.2)
          | (ds, r2) => ('e' :: ds, r2)
        | 'E' :: r =>
          match digitsSpan r with
          | ([], _) => ([], fp.2)
          | (ds, r2) => ('E' :: ds, r2)
        | _ => ([], fp.2)
      .ok (.jnum (String.mk (sgn.1 ++ ip.1 ++ fp.1 ++ ep.1)), ep.2)
    else .error "Expecting value"

mutual

def parseVal : Nat → List Char → Except String (Json × List Char)
  | 0, _ => .error "Nesting too deep"
  | fuel + 1, cs =>
    match skipWs cs with
    | [] => .error "Expecting value"
    | 'n' :: 'u' :: 'l' :: 'l' :: rest => .ok (.jnull, rest)
    | 't' :: 'r' :: 'u' :: 'e' :: rest => .ok (.jbool true, rest)
    | 'f' :: 'a' :: 'l' :: 's' :: 'e' :: rest => .ok (.jbool false, rest)
    | '"' :: rest =>
      (parseStrBody (rest.length + 1) rest).map (fun r => (.jstr (String.mk r.1), r.2))
    | '[' :: rest =>
      (match skipWs rest with
       | ']' :: r2 => .ok (.jarr [], r2)
       | r2 => parseArrItems fuel r2 [])
    | '{' :: rest =>
      (match skipWs rest with
       | '}' :: r2 => .ok (.jobj [], r2)
       | r2 => parseObjItems fuel r2 [])
    | other => parseNumber other

def parseArrItems : Nat → List Char → List Json → Except String (Json × List Char)
  | 0, _, _ => .error "Nesting too deep"
  | fuel + 1, cs, acc =>
    match parseVal fuel cs with
    | .error e => .error e
    | .ok (v, rest) =>
      match skipWs rest with
      | ',' :: r2 => parseArrItems fuel r2 (acc ++ [v])
      | ']' :: r2 => .ok (.jarr (acc ++ [v]), r2)
      | _ => .error "Expecting comma or bracket"

def parseObjItems : Nat → List Char → List (String × Json) → Except String (Json × List Char)
  | 0, _, _ => .error "Nesting too deep"
  | fuel + 1, cs, acc =>
    match skipWs cs with
    | '"' :: rest =>
      match parseStrBody (rest.length + 1) rest with
      | .error e => .error e
      | .ok (k, r2) =>
        match skipWs r2 with
        | ':' :: r3 =>
          match parseVal fuel r3 with
          | .error e => .error e
          | .ok (v, r4) =>
            match skipWs r4 with
            | ',' :: r5 => parseObjItems fuel r5 (acc ++ [(String.mk k, v)])
            | '}' :: r5 => .ok (.jobj (acc ++ [(String.mk k, v)]), r5)
            | _ => .error "Expecting comma or brace"
        | _ => .error "Expecting colon"
    | _ => .error "Expecting property name"

end

/-- `json.loads`: parse one JSON value and require only whitespace after
it. -/
def jsonLoads (s : String) : Except String Json :=
  match parseVal (s.data.length + 2) s.data with
  | .error e => .error e
  | .ok (v, rest) => if (skipWs rest).isEmpty then .ok v else .error "Extra data"

/-! ## Response normalization (`main.py:101-109`) -/

/-- Lines 101–107 of `main.py`: `response.text.strip()`, then drop a leading
 7-character tag fence if the text starts with one, else a generic leading
fence, then drop a trailing fence; the final `.strip()` is the argument of
`json.loads` at line 109. -/
def normalizeResponse (raw : String) : String :=
  let t0 := pyStrip raw
  let t1 :=
    if pyStartsWith t0 "```json" then pyDrop t0 7
    else if pyStartsWith t0 "```" then pyDrop t0 3
    else t0
  let t2 := if pyEndsWith t1 "```" then pyDropRight t1 3 else t1
  pyStrip t2

/-- `json.loads(response_text.strip())` applied to the raw Gemini text
(`main.py:109`). -/
def extractData (raw : String) : Except String Json :=
  jsonLoads (normalizeResponse raw)

/-- Modelled from the claim's words (C4), not from the source: strip a
leading tagged fence if present, otherwise a leading generic fence if
present, strip a trailing fence if present, then trim surrounding
whitespace — without the initial trim the source performs first. -/
def normalizeClaimed (raw : String) : String :=
  let t1 :=
    if pyStartsWith raw "```json" then pyDrop raw 7
    else if pyStartsWith raw "```" then pyDrop raw 3
    else raw
  let t2 := if pyEndsWith t1 "```" then pyDropRight t1 3 else t1
  pyStrip t2

/-- Modelled from the claim's words (C8/C10), not from the source: the
claims describe dropping exactly the files with empty/missing filenames,
so this is the claims' notion of a remaining file. -/
def nonEmptyName : Option String → Bool
  | none => false
  | some s => if s = "" then false else true

/-! ## Data model -/

/-- An uploaded file handle.  FastAPI's `UploadFile.filename` is optional.
The byte content itself never influences the pipeline's control flow (it is
only staged to disk for the remote call), so it is not modelled; the outcome
of reading it is part of the per-file environment below. -/
structure UFile where
  filename : Option String
deriving DecidableEq

/-- Outcomes of every externally-visible effect performed while processing
one file.  `uuidToken` is the 8-character random prefix of the temp id;
`elapsed` is the abstract value of `time.time() - start_time`. -/
structure FileEnv where
  uuidToken : String
  readResult : Except String Unit
  writeResult : Except String Unit
  uploadResult : Except String String
  genResult : Except String String
  deleteResult : Except String Unit
  removeOk : Bool
  elapsed : Int

/-- The success dictionary built at `main.py:112-118`. -/
structure FileResult where
  file_index : Nat
  filename : String
  processing_method : String
  processing_time : Int
  data : Json

/-- The failure dictionary built at `main.py:128` (and rebuilt at
`main.py:197-203`). -/
structure FileError where
  file_index : Nat
  filename : String
  error : String
deriving DecidableEq

/-- `process_single_document` returns one dictionary; the batch loop
discriminates on the presence of the `"error"` key, which in the source is
present exactly on the failure dictionaries. -/
inductive ProcOut where
  | result : FileResult → ProcOut
  | failure : FileError → ProcOut

/-- The summary dictionary built at `main.py:215-224`.  In the source the
`errors` key is omitted from the JSON when the list is empty; the list is
modelled directly, the omission being serialization only. -/
structure BatchSummary where
  total_files : Nat
  successful_extractions : Nat
  failed_extractions : Nat
  total_processing_time : Int
  results : List FileResult
  errors : List FileError

/-- The scratch directory: the set of paths that currently exist. -/
abbrev FS := Finset String

def ProcOut.fi : ProcOut → Nat
  | .result r => r.file_index
  | .failure e => e.file_index

def ProcOut.fn : ProcOut → String
  | .result r => r.filename
  | .failure e => e.filename

/-! ## Document processor (`process_single_document`, `main.py:73-136`) -/

/-- The scratch path `f"tmp/\x7btemp_id\x7d\x7bfile_ext\x7d"` with
`temp_id = f"\x7bstr(uuid.uuid4())[:8]\x7d_\x7bfile_index\x7d"`
(`main.py:77-81`). -/
def tempFilePath (env : FileEnv) (file_index : Nat) (name : String) : String :=
  "tmp/" ++ env.uuidToken ++ "_" ++ toString file_index ++ extOf name

/-- The message raised at `main.py:123-125` for non-PDF extensions. -/
def unsupportedDirectMsg (ext : String) : String :=
  "Only PDF files are supported for direct Gemini processing. Unsupported file type: " ++ ext

/-- The inner `try` of the PDF path (`main.py:91-121`): upload, generate,
delete the remote handle, then normalize and parse; any failure is re-raised
wrapped as `"Direct Gemini processing failed: ..."`.  Note the remote
deletion happens before parsing and inside this `try`. -/
def geminiDirectExtract (env : FileEnv) : Except String Json :=
  let inner : Except String Json :=
    match env.uploadResult with
    | .error m => .error m
    | .ok _ =>
      match env.genResult with
      | .error m => .error m
      | .ok text =>
        match env.deleteResult with
        | .error m => .error m
        | .ok _ => extractData text
  match inner with
  | .error m => .error ("Direct Gemini processing failed: " ++ m)
  | .ok v => .ok v

/-- The `try` block of `process_single_document` (`main.py:83-125`): read
the upload, persist the scratch copy, then dispatch on the extension.  The
returned `Except` is the exception state of the block; the second component
is the scratch directory afterwards. -/
def processTry (name : String) (file_index : Nat) (env : FileEnv) (path : String)
    (fs : FS) : Except String FileResult × FS :=
  match env.readResult with
  | .error m => (.error m, fs)
  | .ok _ =>
    match env.writeResult with
    | .error m => (.error m, fs)
    | .ok _ =>
      let fs1 := insert path fs
      if extOf name = ".pdf" then
        match geminiDirectExtract env with
        | .error m => (.error m, fs1)
        | .ok data =>
          (.ok ⟨file_index, name, "gemini_direct", env.elapsed, data⟩, fs1)
      else
        (.error (unsupportedDirectMsg (extOf name)), fs1)

/-- The `finally` block (`main.py:130-136`): if the scratch file exists,
attempt to remove it and swallow a removal failure. -/
def cleanupTemp (path : String) (removeOk : Bool) (fs : FS) : FS :=
  if path ∈ fs then (if removeOk then fs.erase path else fs) else fs

/-- `process_single_document` (`main.py:73-136`).  The outer `Except` is
the exception state of the whole call: lines 76-81 run before the `try`, so
`os.path.splitext(None)` on a missing filename raises out of the function;
every exception raised inside the `try` is caught at line 127 and turned
into the error dictionary.  `gemini_only` is accepted and never read. -/
def process_single_document (file : UFile) (gemini_only : Bool) (file_index : Nat)
    (env : FileEnv) (fs : FS) : Except String ProcOut × FS :=
  match file.filename with
  | none => (.error "expected str, bytes or os.PathLike object, not NoneType", fs)
  | some name =>
    let path := tempFilePath env file_index name
    let body := processTry name file_index env path fs
    let handled : ProcOut :=
      match body.1 with
      | .ok r => .result r
      | .error m => .failure ⟨file_index, name, m⟩
    (.ok handled, cleanupTemp path env.removeOk body.2)

/-! ## Batch coordinator (`scan_documents`, `main.py:158-226`) -/

/-- Python truthiness test `not file.filename` (`main.py:169`). -/
def pyFalsyName : Option String → Bool
  | none => true
  | some s => s = ""

/-- The filter `f.filename and f.filename.strip()` (`main.py:173`): the
filename is present, non-empty and not whitespace-only. -/
def isValidName : Option String → Bool
  | none => false
  | some s => if s = "" then false else if pyStrip s = "" then false else true

/-- `allowed_extensions` (`main.py:179`); a Python set literal, kept here in
written order (the set's iteration order is unspecified, so theorems only
use membership). -/
def allowed_extensions : List String :=
  [".pdf", ".jpg", ".jpeg", ".png"]

/-- The extension-validation loop (`main.py:180-186`): the first valid
file whose extension is outside the allowed set, if any. -/
def firstBadExt : List UFile → Option String
  | [] => none
  | f :: rest =>
    let e := extOf (f.filename.getD "")
    if e ∈ allowed_extensions then firstBadExt rest else some e

/-- The per-file detail message of the 400 raised at `main.py:183-186`. -/
def unsupportedTypeDetail (ext : String) : String :=
  "Unsupported file type: " ++ ext ++ ". Allowed: " ++
    String.intercalate ", " allowed_extensions

/-- One iteration of the loop at `main.py:192-210`: a result dictionary
without an `"error"` key is appended to `results`; otherwise an error entry
is rebuilt from the loop's own `file_index` and `file.filename`; an escaped
exception (impossible for valid files) would be caught and recorded the
same way. -/
def scanStep (idx : Nat) (fname : Option String) (out : Except String ProcOut)
    (t : List FileResult × List FileError × FS) :
    List FileResult × List FileError × FS :=
  match out with
  | .ok (.result r) => (r :: t.1, t.2.1, t.2.2)
  | .ok (.failure e) => (t.1, ⟨idx, fname.getD "", e.error⟩ :: t.2.1, t.2.2)
  | .error m => (t.1, ⟨idx, fname.getD "", m⟩ :: t.2.1, t.2.2)

/-- The sequential `for file_index, file in enumerate(valid_files)` loop
(`main.py:192-210`), threading the scratch directory. -/
def scanLoop (envs : Nat → FileEnv) (flag : Bool) :
    List UFile → Nat → FS → List FileResult × List FileError × FS
  | [], _, fs => ([], [], fs)
  | f :: rest, idx, fs =>
    let step := process_single_document f flag idx (envs idx) fs
    scanStep idx f.filename step.1 (scanLoop envs flag rest (idx + 1) step.2)

/-- `valid_files` (`main.py:173`). -/
def validFiles (files : List UFile) : List UFile :=
  files.filter (fun f => isValidName f.filename)

/-- `scan_documents` (`main.py:158-226`).  The `Except` error carries the
`detail` string of the `HTTPException(400)`; `envs` supplies the per-file
external behavior, indexed by the position in `valid_files`; `totalTime` is
the abstract total wall-clock time. -/
def scan_documents (files : List UFile) (gemini_only : Bool) (envs : Nat → FileEnv)
    (totalTime : Int) (fs : FS) : Except String BatchSummary × FS :=
  if files.isEmpty || files.all (fun f => pyFalsyName f.filename) then
    (.error "No valid files uploaded", fs)
  else
    let valid_files := validFiles files
    if valid_files.isEmpty then
      (.error "No valid files to process", fs)
    else
      match firstBadExt valid_files with
      | some e => (.error (unsupportedTypeDetail e), fs)
      | none =>
        let r := scanLoop envs gemini_only valid_files 0 fs
        (.ok { total_files := valid_files.length,
               successful_extractions := r.1.length,
               failed_extractions := r.2.1.length,
               total_processing_time := totalTime,
               results := r.1,
               errors := r.2.1 }, r.2.2)

/-! ## Concrete sample inputs used by witnesses and counterexamples -/

/-- A Gemini reply wrapped in a tagged code fence, as in the spec's
round-trip example. -/
def sampleFenced : String :=
  "```json\n\x7b\"document_type\":\"Flight\"\x7d\n```"

/-- The same reply with a leading space before the fence. -/
def sampleFencedPadded : String :=
  " ```json\n\x7b\"document_type\":\"Flight\"\x7d\n```"

def envGood : FileEnv :=
  { uuidToken := "ab12cd34",
    readResult := .ok (),
    writeResult := .ok (),
    uploadResult := .ok "files/remote1",
    genResult := .ok sampleFenced,
    deleteResult := .ok (),
    removeOk := true,
    elapsed := 1 }

def envReadFail : FileEnv := { envGood with readResult := .error "stream read failed" }

def envRemoveFail : FileEnv := { envGood with removeOk := false }

def envDeleteFail : FileEnv := { envGood with deleteResult := .error "403 PERMISSION_DENIED" }

def fPdf : UFile := ⟨some "a.pdf"⟩

def fJpg : UFile := ⟨some "b.jpg"⟩

def fBlank : UFile := ⟨some " "⟩

def fTxt : UFile := ⟨some "c.txt"⟩

/-- The summary the pipeline produces for the one-file batch `[fJpg]` under
`envGood`. -/
def sampleSummaryJpg : BatchSummary :=
  { total_files := 1, successful_extractions := 0, failed_extractions := 1,
    total_processing_time := 0, results := [],
    errors := [⟨0, "b.jpg", unsupportedDirectMsg ".jpg"⟩] }

/-- The message of the first step of `process_single_document` that fails
in environment `env`, for a file with extension `ext`, in the order the
source performs the steps: read, write, extension dispatch, upload,
generate, remote delete, parse; `none` when every step succeeds. -/
def firstFailureMsg (env : FileEnv) (ext : String) : Option String :=
  match env.readResult with
  | .error m => some m
  | .ok _ =>
    match env.writeResult with
    | .error m => some m
    | .ok _ =>
      if ext = ".pdf" then
        match env.uploadResult with
        | .error m => some m
        | .ok _ =>
          match env.genResult with
          | .error m => some m
          | .ok text =>
            match env.deleteResult with
            | .error m => some m
            | .ok _ =>
              match extractData text with
              | .error m => some m
              | .ok _ => none
      else some (unsupportedDirectMsg ext)


/-! ## Helper lemmas -/

lemma isPrefixOf_append_self : ∀ (l r : List Char), l.isPrefixOf (l ++ r) = true
  | [], r => by cases r <;> rfl
  | c :: t, r => by
    simp only [List.cons_append, List.isPrefixOf, Bool.and_eq_true, beq_self_eq_true,
      true_and]
    exact isPrefixOf_append_self t r

lemma listHas_nil : ∀ (hay : List Char), listHas [] hay = true
  | [] => rfl
  | _ :: _ => by simp [listHas, List.isPrefixOf]

lemma listHas_append_self : ∀ (pre nee post : List Char),
    listHas nee (pre ++ (nee ++ post)) = true
  | [], nee, post => by
    cases nee with
    | nil =>
      cases post with
      | nil => rfl
      | cons c t => simp [listHas, List.isEmpty]
    | cons c t =>
      simp only [List.nil_append, List.cons_append, listHas, Bool.or_eq_true]
      exact Or.inl (isPrefixOf_append_self (c :: t) post)
  | c :: pre, nee, post => by
    simp only [List.cons_append, listHas, Bool.or_eq_true]
    exact Or.inr (listHas_append_self pre nee post)

lemma listHas_mono (pre nee hay : List Char) (h : listHas nee hay = true) :
    listHas nee (pre ++ hay) = true := by
  induction pre with
  | nil => exact h
  | cons c t ih =>
    cases hn : nee with
    | nil => exact listHas_nil _
    | cons d u =>
      simp only [List.cons_append, listHas, Bool.or_eq_true]
      exact Or.inr (hn ▸ ih)

lemma strHas_self (s : String) : strHas s s = true := by
  have := listHas_append_self [] s.data []
  simpa [strHas] using this

lemma strHas_append_right (pre s : String) : strHas (pre ++ s) s = true := by
  have := listHas_append_self pre.data s.data []
  simpa [strHas, String.data_append] using this

lemma strHas_append_middle (pre s post : String) :
    strHas (pre ++ s ++ post) s = true := by
  have := listHas_append_self pre.data s.data post.data
  simpa [strHas, String.data_append, List.append_assoc] using this

lemma processTry_success (name : String) (idx : Nat) (env : FileEnv) (path : String)
    (fs : FS) (h : firstFailureMsg env (extOf name) = none) :
    ∃ d, processTry name idx env path fs =
      (.ok ⟨idx, name, "gemini_direct", env.elapsed, d⟩, insert path fs) := by
  unfold firstFailureMsg at h
  unfold processTry geminiDirectExtract
  rcases hr : env.readResult with m | u
  · simp only [hr] at h; exact Option.noConfusion h
  simp only [hr] at h ⊢
  rcases hw : env.writeResult with m | u2
  · simp only [hw] at h; exact Option.noConfusion h
  simp only [hw] at h ⊢
  by_cases hext : extOf name = ".pdf"
  · simp only [if_pos hext] at h ⊢
    rcases hu : env.uploadResult with m | u3
    · simp only [hu] at h; exact Option.noConfusion h
    simp only [hu] at h ⊢
    rcases hg : env.genResult with m | text
    · simp only [hg] at h; exact Option.noConfusion h
    simp only [hg] at h ⊢
    rcases hd : env.deleteResult with m | u4
    · simp only [hd] at h; exact Option.noConfusion h
    simp only [hd] at h ⊢
    rcases hx : extractData text with m | d
    · simp only [hx] at h; exact Option.noConfusion h
    simp only [hx] at h ⊢
    exact ⟨d, rfl⟩
  · simp only [if_neg hext] at h; exact Option.noConfusion h

lemma processTry_failure (name : String) (idx : Nat) (env : FileEnv) (path : String)
    (fs : FS) (m : String) (h : firstFailureMsg env (extOf name) = some m) :
    ∃ m2 fs2, processTry name idx env path fs = (.error m2, fs2) ∧ strHas m2 m = true := by
  unfold firstFailureMsg at h
  unfold processTry geminiDirectExtract
  rcases hr : env.readResult with m0 | u
  · simp only [hr] at h ⊢
    exact ⟨m0, fs, rfl, by cases Option.some_inj.mp h; exact strHas_self _⟩
  simp only [hr] at h ⊢
  rcases hw : env.writeResult with m0 | u2
  · simp only [hw] at h ⊢
    exact ⟨m0, fs, rfl, by cases Option.some_inj.mp h; exact strHas_self _⟩
  simp only [hw] at h ⊢
  by_cases hext : extOf name = ".pdf"
  · simp only [if_pos hext] at h ⊢
    rcases hu : env.uploadResult with m0 | u3
    · simp only [hu] at h ⊢
      exact ⟨_, _, rfl, by cases Option.some_inj.mp h; exact strHas_append_right _ _⟩
    simp only [hu] at h ⊢
    rcases hg : env.genResult with m0 | text
    · simp only [hg] at h ⊢
      exact ⟨_, _, rfl, by cases Option.some_inj.mp h; exact strHas_append_right _ _⟩
    simp only [hg] at h ⊢
    rcases hd : env.deleteResult with m0 | u4
    · simp only [hd] at h ⊢
      exact ⟨_, _, rfl, by cases Option.some_inj.mp h; exact strHas_append_right _ _⟩
    simp only [hd] at h ⊢
    rcases hx : extractData text with m0 | d
    · simp only [hx] at h ⊢
      exact ⟨_, _, rfl, by cases Option.some_inj.mp h; exact strHas_append_right _ _⟩
    simp only [hx] at h
    exact Option.noConfusion h
  · simp only [if_neg hext] at h ⊢
    exact ⟨_, _, rfl, by cases Option.some_inj.mp h; exact strHas_self _⟩

lemma processTry_fi_fn (name : String) (idx : Nat) (env : FileEnv) (path : String)
    (fs : FS) (r : FileResult) (h : (processTry name idx env path fs).1 = .ok r) :
    r.file_index = idx ∧ r.filename = name ∧ r.processing_method = "gemini_direct" ∧
      r.processing_time = env.elapsed := by
  unfold processTry at h
  rcases hr : env.readResult with m | u
  · simp only [hr] at h; exact Except.noConfusion h
  simp only [hr] at h
  rcases hw : env.writeResult with m | u2
  · simp only [hw] at h; exact Except.noConfusion h
  simp only [hw] at h
  by_cases hext : extOf name = ".pdf"
  · simp only [if_pos hext] at h
    rcases hg : geminiDirectExtract env with m | d
    · simp only [hg] at h; exact Except.noConfusion h
    simp only [hg, Except.ok.injEq] at h
    subst h
    exact ⟨rfl, rfl, rfl, rfl⟩
  · simp only [if_neg hext] at h; exact Except.noConfusion h

lemma process_eq_some (f : UFile) (flag : Bool) (idx : Nat) (env : FileEnv) (fs : FS)
    (name : String) (h : f.filename = some name) :
    process_single_document f flag idx env fs =
      (.ok (match (processTry name idx env (tempFilePath env idx name) fs).1 with
            | .ok r => ProcOut.result r
            | .error m => ProcOut.failure ⟨idx, name, m⟩),
       cleanupTemp (tempFilePath env idx name) env.removeOk
         (processTry name idx env (tempFilePath env idx name) fs).2) := by
  unfold process_single_document
  rw [h]

lemma process_eq_none (f : UFile) (flag : Bool) (idx : Nat) (env : FileEnv) (fs : FS)
    (h : f.filename = none) :
    process_single_document f flag idx env fs =
      (.error "expected str, bytes or os.PathLike object, not NoneType", fs) := by
  unfold process_single_document
  rw [h]

lemma process_out_spec (f : UFile) (flag : Bool) (idx : Nat) (env : FileEnv) (fs : FS)
    (name : String) (h : f.filename = some name) :
    ∃ out, process_single_document f flag idx env fs =
        (.ok out, cleanupTemp (tempFilePath env idx name) env.removeOk
          (processTry name idx env (tempFilePath env idx name) fs).2) ∧
      out.fi = idx ∧ out.fn = name := by
  rw [process_eq_some f flag idx env fs name h]
  rcases hb : (processTry name idx env (tempFilePath env idx name) fs).1 with m | r
  · exact ⟨.failure ⟨idx, name, m⟩, rfl, rfl, rfl⟩
  · obtain ⟨hfi, hfn, -, -⟩ := processTry_fi_fn name idx env _ fs r hb
    exact ⟨.result r, rfl, hfi, hfn⟩

lemma process_result_spec (f : UFile) (flag : Bool) (idx : Nat) (env : FileEnv) (fs : FS)
    (r : FileResult) (h : (process_single_document f flag idx env fs).1 = .ok (.result r)) :
    r.file_index = idx ∧ f.filename = some r.filename := by
  cases hf : f.filename with
  | none =>
    rw [process_eq_none f flag idx env fs hf] at h
    exact Except.noConfusion h
  | some name =>
    rw [process_eq_some f flag idx env fs name hf] at h
    rcases hb : (processTry name idx env (tempFilePath env idx name) fs).1 with m | r0 <;>
      rw [hb] at h
    · simp at h
    · simp only [Except.ok.injEq, ProcOut.result.injEq] at h
      subst h
      obtain ⟨hfi, hfn, -, -⟩ := processTry_fi_fn name idx env _ fs r0 hb
      exact ⟨hfi, by simp [hf, hfn]⟩

lemma process_failure_spec (f : UFile) (flag : Bool) (idx : Nat) (env : FileEnv) (fs : FS)
    (e : FileError) (h : (process_single_document f flag idx env fs).1 = .ok (.failure e)) :
    ∃ name, f.filename = some name ∧ e.file_index = idx ∧ e.filename = name := by
  cases hf : f.filename with
  | none =>
    rw [process_eq_none f flag idx env fs hf] at h
    exact Except.noConfusion h
  | some name =>
    rw [process_eq_some f flag idx env fs name hf] at h
    rcases hb : (processTry name idx env (tempFilePath env idx name) fs).1 with m | r0 <;>
      rw [hb] at h
    · simp only [Except.ok.injEq, ProcOut.failure.injEq] at h
      subst h
      exact ⟨name, rfl, rfl, rfl⟩
    · simp at h

/-- Master invariant of the per-file loop: starting at index `idx`, the
result and error entries' indices partition `[idx, idx + n)`, both lists
are strictly increasing in `file_index`, and every entry corresponds to the
input file at its position. -/
lemma scanLoop_spec (envs : Nat → FileEnv) (flag : Bool) :
    ∀ (files : List UFile) (idx : Nat) (fs : FS),
      (((scanLoop envs flag files idx fs).1.map FileResult.file_index ++
        (scanLoop envs flag files idx fs).2.1.map FileError.file_index).Perm
        (List.range' idx files.length)) ∧
      List.Pairwise (· < ·) ((scanLoop envs flag files idx fs).1.map FileResult.file_index) ∧
      List.Pairwise (· < ·) ((scanLoop envs flag files idx fs).2.1.map FileError.file_index) ∧
      (∀ r ∈ (scanLoop envs flag files idx fs).1, ∃ k f, files[k]? = some f ∧
        r.file_index = idx + k ∧ f.filename = some r.filename) ∧
      (∀ e ∈ (scanLoop envs flag files idx fs).2.1, ∃ k f, files[k]? = some f ∧
        e.file_index = idx + k ∧ e.filename = f.filename.getD "")
  | [], idx, fs => by
    simp [scanLoop, List.range']
  | f :: rest, idx, fs => by
    obtain ⟨IHperm, IHp1, IHp2, IHres, IHerr⟩ := scanLoop_spec envs flag rest (idx + 1)
      ((process_single_document f flag idx (envs idx) fs).2)
    have mem_lb : ∀ b, b ∈ (scanLoop envs flag rest (idx + 1)
        ((process_single_document f flag idx (envs idx) fs).2)).1.map FileResult.file_index ++
        (scanLoop envs flag rest (idx + 1)
        ((process_single_document f flag idx (envs idx) fs).2)).2.1.map FileError.file_index →
        idx + 1 ≤ b := by
      intro b hb
      exact (List.mem_range'_1.mp (IHperm.mem_iff.mp hb)).1
    simp only [scanLoop]
    rcases hs : (process_single_document f flag idx (envs idx) fs).1 with m | out
    · simp only [hs, scanStep]
      refine ⟨?_, IHp1, ?_, ?_, ?_⟩
      · rw [List.map_cons, List.length_cons, List.range'_succ]
        exact List.perm_middle.trans (IHperm.cons idx)
      · rw [List.map_cons]
        refine List.pairwise_cons.mpr ⟨?_, IHp2⟩
        intro b hb
        exact Nat.lt_of_lt_of_le (Nat.lt_succ_self idx)
          (mem_lb b (List.mem_append_right _ hb))
      · intro r hr
        obtain ⟨k, f2, hk, hfi, hfn⟩ := IHres r hr
        exact ⟨k + 1, f2, by simpa using hk, by omega, hfn⟩
      · intro e he
        rw [List.mem_cons] at he
        rcases he with he | he
        · exact ⟨0, f, by simp, by simp [he], by rw [he]⟩
        · obtain ⟨k, f2, hk, hfi, hfn⟩ := IHerr e he
          exact ⟨k + 1, f2, by simpa using hk, by omega, hfn⟩
    · rcases out with r | e
      · have hrf := process_result_spec f flag idx (envs idx) fs r hs
        simp only [hs, scanStep]
        refine ⟨?_, ?_, IHp2, ?_, ?_⟩
        · rw [List.map_cons, List.length_cons, List.range'_succ, List.cons_append]
          rw [hrf.1]
          exact IHperm.cons idx
        · rw [List.map_cons]
          refine List.pairwise_cons.mpr ⟨?_, IHp1⟩
          intro b hb
          rw [hrf.1]
          exact Nat.lt_of_lt_of_le (Nat.lt_succ_self idx)
            (mem_lb b (List.mem_append_left _ hb))
        · intro r2 hr2
          rw [List.mem_cons] at hr2
          rcases hr2 with hr2 | hr2
          · exact ⟨0, f, by simp, by simp [hr2, hrf.1], by rw [hr2]; exact hrf.2⟩
          · obtain ⟨k, f2, hk, hfi, hfn⟩ := IHres r2 hr2
            exact ⟨k + 1, f2, by simpa using hk, by omega, hfn⟩
        · intro e he
          obtain ⟨k, f2, hk, hfi, hfn⟩ := IHerr e he
          exact ⟨k + 1, f2, by simpa using hk, by omega, hfn⟩
      · simp only [hs, scanStep]
        refine ⟨?_, IHp1, ?_, ?_, ?_⟩
        · rw [List.map_cons, List.length_cons, List.range'_succ]
          exact List.perm_middle.trans (IHperm.cons idx)
        · rw [List.map_cons]
          refine List.pairwise_cons.mpr ⟨?_, IHp2⟩
          intro b hb
          exact Nat.lt_of_lt_of_le (Nat.lt_succ_self idx)
            (mem_lb b (List.mem_append_right _ hb))
        · intro r hr
          obtain ⟨k, f2, hk, hfi, hfn⟩ := IHres r hr
          exact ⟨k + 1, f2, by simpa using hk, by omega, hfn⟩
        · intro e2 he2
          rw [List.mem_cons] at he2
          rcases he2 with he2 | he2
          · exact ⟨0, f, by simp, by simp [he2], by rw [he2]⟩
          · obtain ⟨k, f2, hk, hfi, hfn⟩ := IHerr e2 he2
            exact ⟨k + 1, f2, by simpa using hk, by omega, hfn⟩

/-- `scanLoop` never reads the `gemini_only` flag. -/
lemma scanLoop_flag (envs : Nat → FileEnv) :
    ∀ (files : List UFile) (idx : Nat) (fs : FS),
      scanLoop envs true files idx fs = scanLoop envs false files idx fs
  | [], _, _ => rfl
  | f :: rest, idx, fs => by
    simp only [scanLoop]
    have h1 : process_single_document f true idx (envs idx) fs =
        process_single_document f false idx (envs idx) fs := rfl
    rw [h1, scanLoop_flag envs rest (idx + 1) _]

/-- Unfolding of `scan_documents` when validation passes. -/
lemma scan_documents_ok (files : List UFile) (flag : Bool) (envs : Nat → FileEnv)
    (t : Int) (fs : FS)
    (h1 : (files.isEmpty || files.all (fun f => pyFalsyName f.filename)) = false)
    (h2 : (validFiles files).isEmpty = false)
    (h3 : firstBadExt (validFiles files) = none) :
    scan_documents files flag envs t fs =
      (.ok { total_files := (validFiles files).length,
             successful_extractions := (scanLoop envs flag (validFiles files) 0 fs).1.length,
             failed_extractions := (scanLoop envs flag (validFiles files) 0 fs).2.1.length,
             total_processing_time := t,
             results := (scanLoop envs flag (validFiles files) 0 fs).1,
             errors := (scanLoop envs flag (validFiles files) 0 fs).2.1 },
       (scanLoop envs flag (validFiles files) 0 fs).2.2) := by
  unfold scan_documents
  simp only [h1, h2, h3, Bool.false_eq_true, if_false]

/-- Unfolding of `scan_documents` when the extension check fires. -/
lemma scan_documents_badext (files : List UFile) (flag : Bool) (envs : Nat → FileEnv)
    (t : Int) (fs : FS) (e : String)
    (h1 : (files.isEmpty || files.all (fun f => pyFalsyName f.filename)) = false)
    (h2 : (validFiles files).isEmpty = false)
    (h3 : firstBadExt (validFiles files) = some e) :
    scan_documents files flag envs t fs = (.error (unsupportedTypeDetail e), fs) := by
  unfold scan_documents
  simp only [h1, h2, h3, Bool.false_eq_true, if_false]

/-- Unfolding of `scan_documents` when the first validation check fires. -/
lemma scan_documents_novalid1 (files : List UFile) (flag : Bool) (envs : Nat → FileEnv)
    (t : Int) (fs : FS)
    (h1 : (files.isEmpty || files.all (fun f => pyFalsyName f.filename)) = true) :
    scan_documents files flag envs t fs = (.error "No valid files uploaded", fs) := by
  unfold scan_documents
  simp only [h1, if_true]

/-- Unfolding of `scan_documents` when the second validation check fires. -/
lemma scan_documents_novalid2 (files : List UFile) (flag : Bool) (envs : Nat → FileEnv)
    (t : Int) (fs : FS)
    (h1 : (files.isEmpty || files.all (fun f => pyFalsyName f.filename)) = false)
    (h2 : (validFiles files).isEmpty = true) :
    scan_documents files flag envs t fs = (.error "No valid files to process", fs) := by
  unfold scan_documents
  simp only [h1, h2, Bool.false_eq_true, if_false, if_true]

/-! ## Claim theorems -/

/-- C1: for every batch accepted by `scan_documents` (validation passed and
a summary is returned), the `results` and `errors` collections partition the
file indices `[0, total_files)` with no duplication and no omission, and
`successful_extractions + failed_extractions = total_files`. -/
theorem scan_results_errors_partition_indices
    (files : List UFile) (flag : Bool) (envs : Nat → FileEnv) (t : Int) (fs : FS)
    (summary : BatchSummary) (fs2 : FS)
    (h : scan_documents files flag envs t fs = (.ok summary, fs2)) :
    summary.successful_extractions + summary.failed_extractions = summary.total_files ∧
    (summary.results.map FileResult.file_index ++
      summary.errors.map FileError.file_index).Perm (List.range summary.total_files) := by
  by_cases h1 : (files.isEmpty || files.all (fun f => pyFalsyName f.filename)) = true
  · rw [scan_documents_novalid1 files flag envs t fs h1] at h
    simp at h
  simp only [Bool.not_eq_true] at h1
  by_cases h2 : (validFiles files).isEmpty = true
  · rw [scan_documents_novalid2 files flag envs t fs h1 h2] at h
    simp at h
  simp only [Bool.not_eq_true] at h2
  rcases h3 : firstBadExt (validFiles files) with - | e
  case neg.some =>
    rw [scan_documents_badext files flag envs t fs e h1 h2 h3] at h
    simp at h
  case neg.none =>
    rw [scan_documents_ok files flag envs t fs h1 h2 h3] at h
    simp only [Prod.mk.injEq, Except.ok.injEq] at h
    obtain ⟨hsum, -⟩ := h
    subst hsum
    obtain ⟨hperm, -, -, -, -⟩ := scanLoop_spec envs flag (validFiles files) 0 fs
    constructor
    · have hlen := hperm.length_eq
      simpa [List.length_append] using hlen
    · simpa [List.range_eq_range'] using hperm

/-- Witness for C1: a concrete one-file batch whose only file fails to
read. -/
theorem scan_results_errors_partition_indices_witness :
    (0 : Nat) + 1 = 1 ∧
    (([] : List FileResult).map FileResult.file_index ++
      [(⟨0, "a.pdf", "stream read failed"⟩ : FileError)].map FileError.file_index).Perm
      (List.range 1) := by
  have h := scan_results_errors_partition_indices [fPdf] true (fun _ => envReadFail) 0 ∅
    { total_files := 1, successful_extractions := 0, failed_extractions := 1,
      total_processing_time := 0, results := [],
      errors := [⟨0, "a.pdf", "stream read failed"⟩] } ∅ rfl
  simpa using h

/-- C2: for every file with a present, non-empty filename,
`process_single_document` never raises: it returns `.ok` for every
environment (every failure at any step becomes a `FileError`), the outcome
preserves `file_index` and `filename`, a failure outcome carries the
failing step's message as a substring, and a success outcome means no step
failed. -/
theorem process_single_document_never_raises
    (file : UFile) (flag : Bool) (idx : Nat) (env : FileEnv) (fs : FS)
    (name : String) (hn : file.filename = some name) (hne : name ≠ "") :
    ∃ out fs2, process_single_document file flag idx env fs = (.ok out, fs2) ∧
      out.fi = idx ∧ out.fn = name ∧
      (∀ e, out = .failure e → ∃ m, firstFailureMsg env (extOf name) = some m ∧
        strHas e.error m = true) ∧
      (∀ r, out = .result r → firstFailureMsg env (extOf name) = none) := by
  rw [process_eq_some file flag idx env fs name hn]
  rcases hm : firstFailureMsg env (extOf name) with - | m
  · obtain ⟨d, hb⟩ := processTry_success name idx env (tempFilePath env idx name) fs hm
    have hb1 : (processTry name idx env (tempFilePath env idx name) fs).1 =
        .ok ⟨idx, name, "gemini_direct", env.elapsed, d⟩ := by rw [hb]
    simp only [hb1]
    refine ⟨.result ⟨idx, name, "gemini_direct", env.elapsed, d⟩, _, rfl, rfl, rfl, ?_, ?_⟩
    · intro e he
      exact ProcOut.noConfusion he
    · intro r hr
      trivial
  · obtain ⟨m2, fs3, hb, hhas⟩ :=
      processTry_failure name idx env (tempFilePath env idx name) fs m hm
    have hb1 : (processTry name idx env (tempFilePath env idx name) fs).1 = .error m2 := by
      rw [hb]
    simp only [hb1]
    refine ⟨.failure ⟨idx, name, m2⟩, _, rfl, rfl, rfl, ?_, ?_⟩
    · intro e he
      have he2 : (⟨idx, name, m2⟩ : FileError) = e := by
        have := ProcOut.failure.inj he
        exact this
      refine ⟨m, rfl, ?_⟩
      rw [← he2]
      exact hhas
    · intro r hr
      exact ProcOut.noConfusion hr

/-- Witness for C2 at a concrete PDF file and all-successful environment. -/
theorem process_single_document_never_raises_witness :
    ∃ out fs2, process_single_document fPdf true 0 envGood ∅ = (.ok out, fs2) ∧
      out.fi = 0 ∧ out.fn = "a.pdf" ∧
      (∀ e, out = .failure e → ∃ m, firstFailureMsg envGood (extOf "a.pdf") = some m ∧
        strHas e.error m = true) ∧
      (∀ r, out = .result r → firstFailureMsg envGood (extOf "a.pdf") = none) :=
  process_single_document_never_raises fPdf true 0 envGood ∅ "a.pdf" rfl (by decide)

/-- C6: the `gemini_only` flag is inert: per-file processing and the whole
scan produce identical outputs (scratch directory included) for
`gemini_only = true` and `gemini_only = false` against the same external
behavior. -/
theorem gemini_only_inert :
    (∀ (file : UFile) (idx : Nat) (env : FileEnv) (fs : FS),
      process_single_document file true idx env fs =
        process_single_document file false idx env fs) ∧
    (∀ (files : List UFile) (envs : Nat → FileEnv) (t : Int) (fs : FS),
      scan_documents files true envs t fs = scan_documents files false envs t fs) := by
  refine ⟨fun file idx env fs => rfl, fun files envs t fs => ?_⟩
  unfold scan_documents
  simp only [scanLoop_flag]

lemma valid_not_falsy (o : Option String) (h : isValidName o = true) :
    pyFalsyName o = false := by
  cases o with
  | none => simp [isValidName] at h
  | some s =>
    by_cases hs : s = ""
    · simp [isValidName, hs] at h
    · simp [pyFalsyName, hs]

lemma firstBadExt_of_mem :
    ∀ (files : List UFile),
      (∃ f ∈ files, extOf (f.filename.getD "") ∉ allowed_extensions) →
      ∃ e, firstBadExt files = some e ∧ e ∉ allowed_extensions
  | [], h => by simp at h
  | f :: rest, h => by
    by_cases hf : extOf (f.filename.getD "") ∈ allowed_extensions
    · have hrest : ∃ g ∈ rest, extOf (g.filename.getD "") ∉ allowed_extensions := by
        obtain ⟨g, hg, hgext⟩ := h
        rw [List.mem_cons] at hg
        rcases hg with hg | hg
        · exact absurd (hg ▸ hf) hgext
        · exact ⟨g, hg, hgext⟩
      obtain ⟨e, he1, he2⟩ := firstBadExt_of_mem rest hrest
      refine ⟨e, ?_, he2⟩
      simp only [firstBadExt, if_pos hf]
      exact he1
    · refine ⟨extOf (f.filename.getD ""), ?_, hf⟩
      simp only [firstBadExt, if_neg hf]

/-- C3: if any file that survives the blank-filename filter has an
extension outside the allowed set, the whole call fails with the
unsupported-type 400 before any per-file processing: the scratch directory
is returned untouched, the result does not depend on the per-file
environments, and the detail message names the offending extension and
contains every allowed extension. -/
theorem scan_rejects_unsupported_extension
    (files : List UFile) (flag : Bool) (envs : Nat → FileEnv) (t : Int) (fs : FS)
    (hbad : ∃ f ∈ validFiles files, extOf (f.filename.getD "") ∉ allowed_extensions) :
    ∃ ext, ext ∉ allowed_extensions ∧
      scan_documents files flag envs t fs = (.error (unsupportedTypeDetail ext), fs) ∧
      strHas (unsupportedTypeDetail ext) ext = true ∧
      (∀ a ∈ allowed_extensions, strHas (unsupportedTypeDetail ext) a = true) := by
  obtain ⟨e, hfb, hnb⟩ := firstBadExt_of_mem _ hbad
  obtain ⟨f, hfmem, -⟩ := hbad
  obtain ⟨hff, hfv⟩ := List.mem_filter.mp hfmem
  have h2 : (validFiles files).isEmpty = false := by
    cases hve : (validFiles files).isEmpty
    · rfl
    · rw [List.isEmpty_iff.mp hve] at hfmem
      simp at hfmem
  have h1 : (files.isEmpty || files.all (fun g => pyFalsyName g.filename)) = false := by
    rw [Bool.or_eq_false_iff]
    constructor
    · cases hfe : files.isEmpty
      · rfl
      · rw [List.isEmpty_iff.mp hfe] at hff
        simp at hff
    · rw [List.all_eq_false]
      exact ⟨f, hff, by simp [valid_not_falsy f.filename hfv]⟩
  have hmsg : unsupportedTypeDetail e =
      ("Unsupported file type: " ++ e) ++
        (". Allowed: " ++ String.intercalate ", " allowed_extensions) := by
    simp [unsupportedTypeDetail, String.append_assoc]
  refine ⟨e, hnb, scan_documents_badext files flag envs t fs e h1 h2 hfb, ?_, ?_⟩
  · rw [hmsg]
    have := listHas_append_self "Unsupported file type: ".data e.data
      (". Allowed: " ++ String.intercalate ", " allowed_extensions).data
    simpa [strHas, String.data_append] using this
  · intro a ha
    have hc : listHas a.data
        (". Allowed: " ++ String.intercalate ", " allowed_extensions).data = true := by
      fin_cases ha <;> decide
    rw [hmsg]
    unfold strHas
    rw [String.data_append]
    exact listHas_mono _ _ _ hc

/-- Witness for C3: a batch holding one valid `.txt` file is rejected. -/
theorem scan_rejects_unsupported_extension_witness :
    ∃ ext, ext ∉ allowed_extensions ∧
      scan_documents [fPdf, fTxt] false (fun _ => envGood) 0 ∅ =
        (.error (unsupportedTypeDetail ext), ∅) ∧
      strHas (unsupportedTypeDetail ext) ext = true ∧
      (∀ a ∈ allowed_extensions, strHas (unsupportedTypeDetail ext) a = true) :=
  scan_rejects_unsupported_extension [fPdf, fTxt] false (fun _ => envGood) 0 ∅
    ⟨fTxt, by decide, by decide⟩

/-- C4 counterexample: on a raw reply with a space before the fence, the
source's normalizer (which trims surrounding whitespace before looking for
the fence) removes the fence and parses the object, while the process the
claim describes leaves the fence in place. -/
theorem normalize_fence_order_counterexample :
    normalizeResponse sampleFencedPadded = "\x7b\"document_type\":\"Flight\"\x7d" ∧
    normalizeClaimed sampleFencedPadded = "```json\n\x7b\"document_type\":\"Flight\"\x7d" ∧
    normalizeResponse sampleFencedPadded ≠ normalizeClaimed sampleFencedPadded ∧
    extractData sampleFencedPadded = .ok (Json.jobj [("document_type", Json.jstr "Flight")]) :=
  ⟨rfl, rfl, by decide, rfl⟩

/-- C4 (amended): the normalizer first trims surrounding whitespace, then
strips a leading tagged/generic fence and a trailing fence and trims again;
on text with no surrounding whitespace this agrees with the claim's
description, and the spec's round-trip example parses to the Flight
object. -/
theorem normalize_strips_fences_after_trim :
    (∀ raw, normalizeResponse raw = normalizeClaimed (pyStrip raw)) ∧
    (∀ raw, pyStrip raw = raw → normalizeResponse raw = normalizeClaimed raw) ∧
    extractData sampleFenced = .ok (Json.jobj [("document_type", Json.jstr "Flight")]) := by
  refine ⟨fun raw => rfl, ?_, rfl⟩
  intro raw h
  have h2 : normalizeResponse raw = normalizeClaimed (pyStrip raw) := rfl
  rw [h] at h2
  exact h2

/-- Witness for the amended C4 at the spec's round-trip example (which has
no surrounding whitespace). -/
theorem normalize_strips_fences_after_trim_witness :
    normalizeResponse sampleFenced = normalizeClaimed sampleFenced :=
  normalize_strips_fences_after_trim.2.1 sampleFenced (by decide)

/-- C5 counterexample: a non-PDF file whose upload-stream read fails still
yields a `FileError`, but its message is the read failure and does not name
the extension. -/
theorem nonpdf_read_failure_counterexample :
    (process_single_document fJpg true 0 envReadFail ∅).1 =
      .ok (.failure ⟨0, "b.jpg", "stream read failed"⟩) ∧
    strHas "stream read failed" ".jpg" = false ∧
    extOf "b.jpg" ≠ ".pdf" :=
  ⟨rfl, by decide, by decide⟩

/-- C5 (amended): for every file whose extension is not `.pdf` and whose
read and staging steps succeed, `process_single_document` returns a
`FileError` naming the unsupported extension and preserving index and
filename, identically for both values of `gemini_only`; and a batch that
passes validation is never aborted by such a per-file failure: `scan`
still returns a summary counting every valid file. -/
theorem nonpdf_yields_file_error
    (file : UFile) (name : String) (flag : Bool) (idx : Nat) (env : FileEnv) (fs : FS)
    (hn : file.filename = some name) (hext : extOf name ≠ ".pdf")
    (hr : env.readResult = .ok ()) (hw : env.writeResult = .ok ()) :
    (process_single_document file flag idx env fs).1 =
      .ok (.failure ⟨idx, name, unsupportedDirectMsg (extOf name)⟩) ∧
    strHas (unsupportedDirectMsg (extOf name)) (extOf name) = true ∧
    process_single_document file true idx env fs =
      process_single_document file false idx env fs ∧
    (∀ (files : List UFile) (envs : Nat → FileEnv) (t : Int) (fs0 : FS),
      (files.isEmpty || files.all (fun g => pyFalsyName g.filename)) = false →
      (validFiles files).isEmpty = false →
      firstBadExt (validFiles files) = none →
      ∃ summary fs1, scan_documents files flag envs t fs0 = (.ok summary, fs1) ∧
        summary.total_files = (validFiles files).length) := by
  have hb : (processTry name idx env (tempFilePath env idx name) fs).1 =
      .error (unsupportedDirectMsg (extOf name)) := by
    unfold processTry
    simp only [hr, hw, if_neg hext]
  refine ⟨?_, strHas_append_right _ _, rfl, ?_⟩
  · rw [process_eq_some file flag idx env fs name hn]
    simp only [hb]
  · intro files envs t fs0 h1 h2 h3
    exact ⟨_, _, scan_documents_ok files flag envs t fs0 h1 h2 h3, rfl⟩

/-- Witness for the amended C5 at a concrete `.jpg` file. -/
theorem nonpdf_yields_file_error_witness :
    (process_single_document fJpg false 1 envGood ∅).1 =
      .ok (.failure ⟨1, "b.jpg", unsupportedDirectMsg (extOf "b.jpg")⟩) ∧
    strHas (unsupportedDirectMsg (extOf "b.jpg")) (extOf "b.jpg") = true ∧
    process_single_document fJpg true 1 envGood ∅ =
      process_single_document fJpg false 1 envGood ∅ ∧
    (∀ (files : List UFile) (envs : Nat → FileEnv) (t : Int) (fs0 : FS),
      (files.isEmpty || files.all (fun g => pyFalsyName g.filename)) = false →
      (validFiles files).isEmpty = false →
      firstBadExt (validFiles files) = none →
      ∃ summary fs1, scan_documents files false envs t fs0 = (.ok summary, fs1) ∧
        summary.total_files = (validFiles files).length) :=
  nonpdf_yields_file_error fJpg "b.jpg" false 1 envGood ∅ rfl (by decide) rfl rfl

/-- C7 counterexample: when the scratch-file removal fails, the removal
failure is swallowed, but the scratch file still exists after
`process_single_document` returns. -/
theorem scratch_persists_on_remove_failure_counterexample :
    (process_single_document fJpg true 0 envRemoveFail ∅).1 =
      .ok (.failure ⟨0, "b.jpg", unsupportedDirectMsg ".jpg"⟩) ∧
    tempFilePath envRemoveFail 0 "b.jpg" = "tmp/ab12cd34_0.jpg" ∧
    "tmp/ab12cd34_0.jpg" ∈ (process_single_document fJpg true 0 envRemoveFail ∅).2 :=
  ⟨rfl, rfl, by decide⟩

/-- C7 (amended): scratch-copy deletion is attempted on every exit path and
a deletion failure never alters the returned outcome (the outcome is
independent of `removeOk`); when the removal attempt succeeds, the scratch
file no longer exists after the call. -/
theorem cleanup_swallowed_and_best_effort
    (file : UFile) (name : String) (flag : Bool) (idx : Nat) (env : FileEnv) (fs : FS)
    (b : Bool) (hn : file.filename = some name) :
    (process_single_document file flag idx env fs).1 =
      (process_single_document file flag idx { env with removeOk := b } fs).1 ∧
    (env.removeOk = true →
      tempFilePath env idx name ∉ (process_single_document file flag idx env fs).2) := by
  constructor
  · rw [process_eq_some file flag idx env fs name hn,
      process_eq_some file flag idx { env with removeOk := b } fs name hn]
    rfl
  · intro hro
    rw [process_eq_some file flag idx env fs name hn]
    unfold cleanupTemp
    rw [hro]
    by_cases hmem : tempFilePath env idx name ∈
        (processTry name idx env (tempFilePath env idx name) fs).2
    · simp only [if_pos hmem, if_true]
      exact Finset.not_mem_erase _ _
    · simp only [if_neg hmem]
      exact hmem

/-- Witness for the amended C7 at a concrete file and an all-successful
environment. -/
theorem cleanup_swallowed_and_best_effort_witness :
    (process_single_document fPdf true 0 envGood ∅).1 =
      (process_single_document fPdf true 0 { envGood with removeOk := false } ∅).1 ∧
    (envGood.removeOk = true →
      tempFilePath envGood 0 "a.pdf" ∉ (process_single_document fPdf true 0 envGood ∅).2) :=
  cleanup_swallowed_and_best_effort fPdf "a.pdf" true 0 envGood ∅ false rfl

/-- C9 counterexample: upload and generation succeed and the reply parses
to the Flight object, but the remote-handle deletion fails; the call
returns a `FileError` wrapping the deletion error instead of the already
obtained result. -/
theorem delete_failure_masks_result_counterexample :
    extractData sampleFenced = .ok (Json.jobj [("document_type", Json.jstr "Flight")]) ∧
    envDeleteFail.genResult = .ok sampleFenced ∧
    (process_single_document fPdf true 0 envDeleteFail ∅).1 =
      .ok (.failure ⟨0, "a.pdf", "Direct Gemini processing failed: 403 PERMISSION_DENIED"⟩) :=
  ⟨rfl, rfl, rfl⟩

/-- C9 (amended): when every step up to the remote call succeeds for a PDF
file and the remote-handle deletion fails, the deletion failure masks the
primary result: the file is reported as a `FileError` wrapping the deletion
error message. -/
theorem delete_failure_becomes_file_error
    (file : UFile) (name : String) (flag : Bool) (idx : Nat) (env : FileEnv) (fs : FS)
    (m : String) (hn : file.filename = some name) (hext : extOf name = ".pdf")
    (hr : env.readResult = .ok ()) (hw : env.writeResult = .ok ())
    (hu : ∃ hdl, env.uploadResult = .ok hdl) (hg : ∃ tx, env.genResult = .ok tx)
    (hd : env.deleteResult = .error m) :
    (process_single_document file flag idx env fs).1 =
      .ok (.failure ⟨idx, name, "Direct Gemini processing failed: " ++ m⟩) := by
  obtain ⟨hdl, hu⟩ := hu
  obtain ⟨tx, hg⟩ := hg
  have hb : (processTry name idx env (tempFilePath env idx name) fs).1 =
      .error ("Direct Gemini processing failed: " ++ m) := by
    unfold processTry geminiDirectExtract
    simp only [hr, hw, hu, hg, hd, if_pos hext]
  rw [process_eq_some file flag idx env fs name hn]
  simp only [hb]

/-- Witness for the amended C9 at a concrete input. -/
theorem delete_failure_becomes_file_error_witness :
    (process_single_document fPdf false 1 envDeleteFail ∅).1 =
      .ok (.failure ⟨1, "a.pdf",
        "Direct Gemini processing failed: " ++ "403 PERMISSION_DENIED"⟩) :=
  delete_failure_becomes_file_error fPdf "a.pdf" false 1 envDeleteFail ∅
    "403 PERMISSION_DENIED" rfl (by decide) rfl rfl ⟨"files/remote1", rfl⟩
    ⟨sampleFenced, rfl⟩ rfl

/-- C8 counterexample: a whitespace-only filename is also dropped, so the
claim's own notion of "remaining files" (those with non-empty filenames)
disagrees with the code: with input `[" ", "a.pdf"]` the claim's remaining
set has two files with `a.pdf` at index 1, while the code counts one file
and gives `a.pdf` index 0. -/
theorem blank_filename_dropped_counterexample :
    ([fBlank, fPdf].filter (fun f => nonEmptyName f.filename)).length = 2 ∧
    (scan_documents [fBlank, fPdf] true (fun _ => envReadFail) 0 ∅).1 =
      .ok { total_files := 1, successful_extractions := 0, failed_extractions := 1,
            total_processing_time := 0, results := [],
            errors := [⟨0, "a.pdf", "stream read failed"⟩] } :=
  ⟨by decide, rfl⟩

/-- C8 (amended): files whose filename is missing, empty, or whitespace-only
are silently dropped; the remaining files keep their relative order and get
`file_index` 0..n-1 in that filtered order: `total_files` is the filtered
count, result and error entries are strictly ascending in `file_index`, and
each entry's filename is that of the filtered file at its index. -/
theorem scan_entries_ordered_and_indexed
    (files : List UFile) (flag : Bool) (envs : Nat → FileEnv) (t : Int) (fs : FS)
    (summary : BatchSummary) (fs2 : FS)
    (h : scan_documents files flag envs t fs = (.ok summary, fs2)) :
    summary.total_files = (validFiles files).length ∧
    List.Pairwise (· < ·) (summary.results.map FileResult.file_index) ∧
    List.Pairwise (· < ·) (summary.errors.map FileError.file_index) ∧
    (∀ r ∈ summary.results, ∃ f, (validFiles files)[r.file_index]? = some f ∧
      f.filename = some r.filename) ∧
    (∀ e ∈ summary.errors, ∃ f, (validFiles files)[e.file_index]? = some f ∧
      e.filename = f.filename.getD "") := by
  by_cases h1 : (files.isEmpty || files.all (fun f => pyFalsyName f.filename)) = true
  · rw [scan_documents_novalid1 files flag envs t fs h1] at h
    simp at h
  simp only [Bool.not_eq_true] at h1
  by_cases h2 : (validFiles files).isEmpty = true
  · rw [scan_documents_novalid2 files flag envs t fs h1 h2] at h
    simp at h
  simp only [Bool.not_eq_true] at h2
  rcases h3 : firstBadExt (validFiles files) with - | e
  case neg.some =>
    rw [scan_documents_badext files flag envs t fs e h1 h2 h3] at h
    simp at h
  case neg.none =>
    rw [scan_documents_ok files flag envs t fs h1 h2 h3] at h
    simp only [Prod.mk.injEq, Except.ok.injEq] at h
    obtain ⟨hsum, -⟩ := h
    subst hsum
    obtain ⟨-, hp1, hp2, hres, herr⟩ := scanLoop_spec envs flag (validFiles files) 0 fs
    refine ⟨rfl, hp1, hp2, ?_, ?_⟩
    · intro r hr
      obtain ⟨k, f, hk, hfi, hfn⟩ := hres r hr
      refine ⟨f, ?_, hfn⟩
      rw [hfi]
      simpa using hk
    · intro e he
      obtain ⟨k, f, hk, hfi, hfn⟩ := herr e he
      refine ⟨f, ?_, hfn⟩
      rw [hfi]
      simpa using hk

/-- Witness for the amended C8 at a concrete one-file batch. -/
theorem scan_entries_ordered_and_indexed_witness :
    sampleSummaryJpg.total_files = (validFiles [fJpg]).length ∧
    List.Pairwise (· < ·) (sampleSummaryJpg.results.map FileResult.file_index) ∧
    List.Pairwise (· < ·) (sampleSummaryJpg.errors.map FileError.file_index) ∧
    (∀ r ∈ sampleSummaryJpg.results, ∃ f, (validFiles [fJpg])[r.file_index]? = some f ∧
      f.filename = some r.filename) ∧
    (∀ e ∈ sampleSummaryJpg.errors, ∃ f, (validFiles [fJpg])[e.file_index]? = some f ∧
      e.filename = f.filename.getD "") :=
  scan_entries_ordered_and_indexed [fJpg] true (fun _ => envGood) 0 ∅
    sampleSummaryJpg ∅ rfl

lemma isValidName_eq_false_iff (o : Option String) :
    isValidName o = false ↔ pyStrip (o.getD "") = "" := by
  cases o with
  | none =>
    constructor
    · intro _; rfl
    · intro _; rfl
  | some s =>
    by_cases hs : s = ""
    · subst hs
      constructor
      · intro _; rfl
      · intro _; rfl
    · simp only [isValidName, Option.getD, if_neg hs]
      by_cases hps : pyStrip s = ""
      · simp [hps]
      · simp [hps]

lemma pyFalsy_blank (o : Option String) (h : pyFalsyName o = true) :
    pyStrip (o.getD "") = "" := by
  cases o with
  | none => rfl
  | some s =>
    have hs : s = "" := by simpa [pyFalsyName] using h
    subst hs
    rfl

lemma unsupportedTypeDetail_ne (e : String) :
    unsupportedTypeDetail e ≠ "No valid files uploaded" ∧
    unsupportedTypeDetail e ≠ "No valid files to process" := by
  constructor <;>
    · intro h
      have h2 := congrArg String.data h
      rw [unsupportedTypeDetail] at h2
      simp only [String.data_append] at h2
      simp at h2

/-- C10 counterexample: a batch holding one whitespace-only filename — a
present, non-empty filename — is still rejected as an empty batch with the
"No valid files to process" detail. -/
theorem whitespace_filename_empty_batch_counterexample :
    (scan_documents [fBlank] true (fun _ => envGood) 0 ∅).1 =
      .error "No valid files to process" ∧
    ([fBlank] : List UFile) ≠ [] ∧
    (∀ f ∈ ([fBlank] : List UFile), ∃ s, f.filename = some s ∧ s ≠ "") := by
  refine ⟨rfl, by decide, ?_⟩
  intro f hf
  rw [List.mem_singleton] at hf
  exact ⟨" ", by rw [hf]; rfl, by decide⟩

/-- C10 (amended): `scan_documents` fails with one of the two empty-batch
400 details if and only if the input list is empty or every entry's
filename is missing, empty, or whitespace-only; and in that case the
failure happens before any per-file processing: the scratch directory is
returned untouched (and no per-file environment is consulted, the error
being fixed by the file list alone). -/
theorem empty_batch_validation
    (files : List UFile) (flag : Bool) (envs : Nat → FileEnv) (t : Int) (fs : FS) :
    (((scan_documents files flag envs t fs).1 = .error "No valid files uploaded" ∨
      (scan_documents files flag envs t fs).1 = .error "No valid files to process") ↔
      (files = [] ∨ ∀ f ∈ files, pyStrip (f.filename.getD "") = "")) ∧
    (((scan_documents files flag envs t fs).1 = .error "No valid files uploaded" ∨
      (scan_documents files flag envs t fs).1 = .error "No valid files to process") →
      (scan_documents files flag envs t fs).2 = fs) := by
  constructor
  · constructor
    · intro hres
      by_cases h1 : (files.isEmpty || files.all (fun f => pyFalsyName f.filename)) = true
      · rw [Bool.or_eq_true] at h1
        rcases h1 with he | ha
        · exact Or.inl (List.isEmpty_iff.mp he)
        · refine Or.inr ?_
          intro f hf
          exact pyFalsy_blank f.filename (List.all_eq_true.mp ha f hf)
      · simp only [Bool.not_eq_true] at h1
        by_cases h2 : (validFiles files).isEmpty = true
        · refine Or.inr ?_
          intro f hf
          have hnil := List.isEmpty_iff.mp h2
          have hfv : isValidName f.filename = false := by
            cases hv : isValidName f.filename
            · rfl
            · exfalso
              have : f ∈ validFiles files := List.mem_filter.mpr ⟨hf, hv⟩
              rw [hnil] at this
              simp at this
          exact (isValidName_eq_false_iff f.filename).mp hfv
        · exfalso
          simp only [Bool.not_eq_true] at h2
          rcases h3 : firstBadExt (validFiles files) with - | e
          case neg.none =>
            rw [scan_documents_ok files flag envs t fs h1 h2 h3] at hres
            rcases hres with hres | hres <;> simp at hres
          case neg.some =>
            rw [scan_documents_badext files flag envs t fs e h1 h2 h3] at hres
            rcases hres with hres | hres <;>
              simp only [Except.error.injEq] at hres
            · exact (unsupportedTypeDetail_ne e).1 hres
            · exact (unsupportedTypeDetail_ne e).2 hres
    · intro hcond
      rcases hcond with hnil | hall
      · subst hnil
        exact Or.inl (by rw [scan_documents_novalid1 [] flag envs t fs rfl])
      · by_cases h1 : (files.isEmpty || files.all (fun f => pyFalsyName f.filename)) = true
        · exact Or.inl (by rw [scan_documents_novalid1 files flag envs t fs h1])
        · simp only [Bool.not_eq_true] at h1
          have h2 : (validFiles files).isEmpty = true := by
            rw [List.isEmpty_iff]
            rw [validFiles, List.filter_eq_nil_iff]
            intro f hf
            rw [Bool.not_eq_true]
            exact (isValidName_eq_false_iff f.filename).mpr (hall f hf)
          exact Or.inr (by rw [scan_documents_novalid2 files flag envs t fs h1 h2])
  · intro hres
    by_cases h1 : (files.isEmpty || files.all (fun f => pyFalsyName f.filename)) = true
    · rw [scan_documents_novalid1 files flag envs t fs h1]
    · simp only [Bool.not_eq_true] at h1
      by_cases h2 : (validFiles files).isEmpty = true
      · rw [scan_documents_novalid2 files flag envs t fs h1 h2]
      · simp only [Bool.not_eq_true] at h2
        rcases h3 : firstBadExt (validFiles files) with - | e
        case neg.none =>
          exfalso
          rw [scan_documents_ok files flag envs t fs h1 h2 h3] at hres
          rcases hres with hres | hres <;> simp at hres
        case neg.some =>
          rw [scan_documents_badext files flag envs t fs e h1 h2 h3]

/-- Witness for the amended C10 at the empty batch. -/
theorem empty_batch_validation_witness :
    (scan_documents ([] : List UFile) true (fun _ => envGood) 0 ∅).1 =
      .error "No valid files uploaded" ∨
    (scan_documents ([] : List UFile) true (fun _ => envGood) 0 ∅).1 =
      .error "No valid files to process" :=
  (empty_batch_validation [] true (fun _ => envGood) 0 ∅).1.mpr (Or.inl rfl)

end AiPassScan
